import Mathlib

/-!
# Verification of the script-wizard parser / stack machine / stepping controller

Shallow embedding of the core of `src/utils/scriptUtils.ts` (the Bitcoin-Script
debugger engine): byte/hex helpers, minimal script-number encoding, the fallback
token parser, the step/run/breakpoint controller.  JavaScript strings are
modelled as `List Char`, JavaScript `number[]` byte arrays as `List Nat`,
optional fields as `Option`.  The opcode values stored in instructions are
modelled as `ℚ` because the source computes `cleanHex.length / 2` with
JavaScript division, which is fractional for odd-length hex tokens.

The `Spend` stack-machine class that `scriptUtils.ts` imports
(`./Spend`, re-exporting the `@bsv/sdk` engine) is not part of the source
tree; where a definition depends on it, it is modelled from the spec
(§4.3) and marked `Modelled from the spec:` in its doc comment.
-/

namespace ScriptWizard

/-! ## Byte / hex helpers -/

/-- Hex value of a single character, as accepted by `parseInt(·, 16)`. -/
def hexCharVal (c : Char) : Option Nat :=
  if '0' ≤ c ∧ c ≤ '9' then some (c.toNat - '0'.toNat)
  else if 'a' ≤ c ∧ c ≤ 'f' then some (c.toNat - 'a'.toNat + 10)
  else if 'A' ≤ c ∧ c ≤ 'F' then some (c.toNat - 'A'.toNat + 10)
  else none

/-- `parseInt(s, 16)` restricted to the one- or two-character slices the source
takes with `substr(i, 2)`.  `none` models `NaN`; `parseInt` parses the longest
valid prefix, and a literal `"0x"` slice is `NaN`. -/
def jsParseIntHex2 (c1 c2 : Char) : Option Nat :=
  if c1 = '0' ∧ (c2 = 'x' ∨ c2 = 'X') then none
  else
    match hexCharVal c1 with
    | none => none
    | some v1 =>
      match hexCharVal c2 with
      | none => some v1
      | some v2 => some (16 * v1 + v2)

/-- `parseInt(s, 16)` of a single-character slice. -/
def jsParseIntHex1 (c : Char) : Option Nat := hexCharVal c

/-- Digits of `v` in base 16, most significant first, as produced by
JavaScript `v.toString(16)` for a non-negative integer (fuel-structured so
that the kernel can evaluate it; `v` itself always suffices as fuel). -/
def toHexDigitsAux : Nat → Nat → List Char
  | 0, v => [Nat.digitChar (v % 16)]
  | f + 1, v => if v < 16 then [Nat.digitChar v]
      else toHexDigitsAux f (v / 16) ++ [Nat.digitChar (v % 16)]

/-- JavaScript `v.toString(16)` for a natural number. -/
def toHexDigits (v : Nat) : List Char := toHexDigitsAux v v

/-- JavaScript `b.toString(16).padStart(2, '0')`. -/
def byteToHex (b : Nat) : List Char :=
  let s := toHexDigits b
  if s.length < 2 then List.replicate (2 - s.length) '0' ++ s else s

/-- `uint8ArrayToHex` from `scriptUtils.ts`:
`Array.from(arr).map(b => b.toString(16).padStart(2, '0')).join('')`.
The helper `numberArrayToHex` in the same file has byte-identical code and is
modelled by this same function. -/
def uint8ArrayToHex (arr : List Nat) : List Char := (arr.map byteToHex).flatten

/-- `hexToUint8Array`'s conversion loop (after the prefix strip / lowercase
normalisation, which the callers do separately): bytes are taken from
consecutive 2-character slices; a trailing single character produces a write
one past the end of the `Uint8Array`, which JavaScript silently drops; an
invalid slice parses to `NaN`, which `Uint8Array` stores as `0`. -/
def hexPairsToBytes : List Char → List Nat
  | c1 :: c2 :: rest => (jsParseIntHex2 c1 c2).getD 0 :: hexPairsToBytes rest
  | [_] => []
  | [] => []

/-! ## `castToBool` (scriptUtils.ts lines 27-35) -/

/-- `castToBool`: a byte sequence is truthy iff it has a nonzero byte, except
that a sequence whose first nonzero byte is the final byte `0x80` is falsy. -/
def castToBool : List Nat → Bool
  | [] => false
  | v :: rest =>
    if v ≠ 0 then !(decide (rest = [] ∧ v = 0x80))
    else castToBool rest

/-! ## `isTruthy` (scriptUtils.ts lines 222-236) -/

/-- The byte-pair scan inside `isTruthy`: walks 2-character slices; on the
first nonzero byte returns `false` iff that slice is the final *pair* and the
byte is `0x80`, else `true`; all-zero input is falsy.  A trailing single
character is its own `substr(i, 2)` slice at position `len - 1 ≠ len - 2`. -/
def isTruthyGo : List Char → Bool
  | c1 :: c2 :: rest =>
    (match jsParseIntHex2 c1 c2 with
     | none => true
     | some b => if b ≠ 0 then !(decide (rest = [] ∧ b = 0x80)) else isTruthyGo rest)
  | [c] =>
    (match jsParseIntHex1 c with
     | none => true
     | some b => if b ≠ 0 then true else false)
  | [] => false

/-- `isTruthy`: hex-string truthiness (`scriptUtils.ts`).  Lowercases the
input, special-cases `''` and `'00'`, then scans byte pairs. -/
def isTruthy (data : List Char) : Bool :=
  let normalizedData := data.map Char.toLower
  if normalizedData = [] ∨ normalizedData = "00".data then false
  else isTruthyGo normalizedData

/-! ## Minimal script-number encoding (scriptUtils.ts lines 182-218) -/

/-- The `while (value > 0) { bytes.push(value & 0xff); value >>= 8 }` loop of
`encodeScriptNumber`, fuel-structured (`v` bounds the iteration count). -/
def toLEBytesAux : Nat → Nat → List Nat
  | _, 0 => []
  | 0, _ + 1 => []
  | f + 1, v + 1 => ((v + 1) &&& 0xff) :: toLEBytesAux f ((v + 1) >>> 8)

/-- Little-endian base-256 digits of a natural number (the loop above with
enough fuel). -/
def toLEBytes (v : Nat) : List Nat := toLEBytesAux v v

/-- `encodeScriptNumber`: minimal script-number encoding.  Little-endian
magnitude bytes; if the top byte has its high bit set, append a sign byte
(`0x80` when negative, `0x00` otherwise); else, if negative, OR `0x80` into
the top byte.  Zero is the empty sequence. -/
def encodeScriptNumber (num : ℤ) : List Nat :=
  if num = 0 then []
  else
    let isNegative := num < 0
    let absNum := num.natAbs
    let bytes := toLEBytes absNum
    if bytes.getLastD 0 &&& 0x80 ≠ 0 then
      bytes ++ [if isNegative then 0x80 else 0x00]
    else if isNegative then
      bytes.dropLast ++ [bytes.getLastD 0 ||| 0x80]
    else bytes

/-- `decodeScriptNumber`: sign bit is the high bit of the last byte; the
magnitude accumulates from the last byte (masked with `0x7f`) down to the
first (masked with `0xff`). -/
def decodeScriptNumber (data : List Nat) : ℤ :=
  if data.length = 0 then 0
  else
    let isNegative := data.getLastD 0 &&& 0x80 ≠ 0
    let result : Nat :=
      (data.reverse.drop 1).foldl (fun r b => r * 256 + (b &&& 0xff)) (data.getLastD 0 &&& 0x7f)
    if isNegative then -(result : ℤ) else (result : ℤ)

/-! ### Arithmetic facts about the encoding -/

/-- Little-endian base-256 value of a byte list. -/
def leVal : List Nat → Nat
  | [] => 0
  | b :: bs => b + 256 * leVal bs

theorem leVal_concat (ds : List Nat) (d : Nat) :
    leVal (ds ++ [d]) = leVal ds + 256 ^ ds.length * d := by
  induction ds with
  | nil => simp [leVal]
  | cons x xs ih => simp [leVal, ih, pow_succ]; ring

theorem shiftRight8_le (w : Nat) : (w + 1) >>> 8 ≤ w := by
  rw [Nat.shiftRight_eq_div_pow]
  have h2 : (w + 1) / 2 ^ 8 < w + 1 := Nat.div_lt_self (Nat.succ_pos w) (by norm_num)
  omega

theorem toLEBytesAux_congr (v : Nat) : ∀ f₁ f₂, v ≤ f₁ → v ≤ f₂ →
    toLEBytesAux f₁ v = toLEBytesAux f₂ v := by
  induction v using Nat.strong_induction_on with
  | _ v ih =>
    intro f₁ f₂ h₁ h₂
    match v, f₁, f₂ with
    | 0, f₁, f₂ => cases f₁ <;> cases f₂ <;> rfl
    | w + 1, a + 1, b + 1 =>
      show ((w+1) &&& 0xff) :: toLEBytesAux a ((w+1) >>> 8)
        = ((w+1) &&& 0xff) :: toLEBytesAux b ((w+1) >>> 8)
      have hlt : (w + 1) >>> 8 < w + 1 := lt_of_le_of_lt (shiftRight8_le w) (Nat.lt_succ_self w)
      rw [ih _ hlt a b (le_trans (shiftRight8_le w) (by omega))
        (le_trans (shiftRight8_le w) (by omega))]

theorem toLEBytes_succ (w : Nat) :
    toLEBytes (w + 1) = ((w+1) &&& 0xff) :: toLEBytes ((w+1) >>> 8) := by
  show ((w+1) &&& 0xff) :: toLEBytesAux w ((w+1) >>> 8) = _
  rw [toLEBytesAux_congr ((w+1) >>> 8) w ((w+1) >>> 8) (shiftRight8_le w) (le_refl _)]
  rfl

theorem and_255_eq_mod (v : Nat) : v &&& 0xff = v % 256 := by
  have := Nat.and_pow_two_sub_one_eq_mod v 8
  norm_num at this
  exact this

theorem shiftRight8_eq_div (v : Nat) : v >>> 8 = v / 256 := by
  rw [Nat.shiftRight_eq_div_pow]

theorem leVal_toLEBytes (v : Nat) : leVal (toLEBytes v) = v := by
  induction v using Nat.strong_induction_on with
  | _ v ih =>
    match v with
    | 0 => rfl
    | w + 1 =>
      rw [toLEBytes_succ, leVal, and_255_eq_mod, shiftRight8_eq_div]
      rw [ih ((w+1)/256) (Nat.div_lt_self (Nat.succ_pos w) (by norm_num))]
      omega

theorem toLEBytes_mem_lt (v : Nat) : ∀ b ∈ toLEBytes v, b < 256 := by
  induction v using Nat.strong_induction_on with
  | _ v ih =>
    match v with
    | 0 => intro b hb; simp [toLEBytes, toLEBytesAux] at hb
    | w + 1 =>
      rw [toLEBytes_succ]
      intro b hb
      rcases List.mem_cons.mp hb with h | h
      · subst h; rw [and_255_eq_mod]; exact Nat.mod_lt _ (by norm_num)
      · exact ih ((w+1) >>> 8)
          (by rw [shiftRight8_eq_div]; exact Nat.div_lt_self (Nat.succ_pos w) (by norm_num)) b h

theorem toLEBytes_ne_nil (v : Nat) (h : v ≠ 0) : toLEBytes v ≠ [] := by
  match v with
  | 0 => exact absurd rfl h
  | w + 1 => rw [toLEBytes_succ]; exact List.cons_ne_nil _ _

/-- The decode loop over a reversed byte list computes the little-endian
value, provided every byte fits in one byte. -/
theorem foldl_reverse_leVal (ds : List Nat) (acc : Nat) (h : ∀ b ∈ ds, b < 256) :
    ds.reverse.foldl (fun r b => r * 256 + (b &&& 0xff)) acc
      = acc * 256 ^ ds.length + leVal ds := by
  induction ds generalizing acc with
  | nil => simp [leVal]
  | cons x xs ih =>
    have hx : x < 256 := h x (List.mem_cons_self x xs)
    have hxs : ∀ b ∈ xs, b < 256 := fun b hb => h b (List.mem_cons_of_mem x hb)
    rw [List.reverse_cons, List.foldl_append, ih acc hxs]
    simp only [List.foldl_cons, List.foldl_nil, leVal, List.length_cons]
    rw [and_255_eq_mod, Nat.mod_eq_of_lt hx, pow_succ]
    ring

theorem decode_concat (ds : List Nat) (d : Nat) (h : ∀ b ∈ ds, b < 256) :
    decodeScriptNumber (ds ++ [d])
      = if d &&& 0x80 ≠ 0 then -(((d &&& 0x7f) * 256 ^ ds.length + leVal ds : Nat) : ℤ)
        else (((d &&& 0x7f) * 256 ^ ds.length + leVal ds : Nat) : ℤ) := by
  unfold decodeScriptNumber
  have hlen : (ds ++ [d]).length ≠ 0 := by simp
  rw [if_neg hlen]
  have hlast : (ds ++ [d]).getLastD 0 = d := by
    rw [List.getLastD_eq_getLast?, List.getLast?_concat]; rfl
  have hrev : ((ds ++ [d]).reverse.drop 1) = ds.reverse := by
    rw [List.reverse_append]; rfl
  rw [hlast, hrev, foldl_reverse_leVal ds (d &&& 0x7f) h]

theorem getLastD_concat' {α : Type} (l : List α) (a d : α) :
    (l ++ [a]).getLastD d = a := by
  rw [List.getLastD_eq_getLast?, List.getLast?_concat]; rfl

set_option maxRecDepth 4000 in
theorem or128_and128 : ∀ d < 256, (d ||| 0x80) &&& 0x80 ≠ 0 := by decide

set_option maxRecDepth 4000 in
theorem or128_and127 : ∀ d < 256, d &&& 0x80 = 0 → (d ||| 0x80) &&& 0x7f = d := by decide

set_option maxRecDepth 4000 in
theorem and127_of_high_clear : ∀ d < 256, d &&& 0x80 = 0 → d &&& 0x7f = d := by decide

set_option maxRecDepth 4000 in
theorem or128_lt : ∀ d < 256, d ||| 0x80 < 256 := by decide

/-- Every byte the encoder emits fits in one byte. -/
theorem encodeScriptNumber_mem_lt (n : ℤ) : ∀ b ∈ encodeScriptNumber n, b < 256 := by
  by_cases h0 : n = 0
  · simp [encodeScriptNumber, h0]
  · simp only [encodeScriptNumber, if_neg h0]
    rcases List.eq_nil_or_concat (toLEBytes n.natAbs) with hnil | ⟨ds, d, hcat⟩
    · exact absurd hnil (toLEBytes_ne_nil _ (by simpa using h0))
    · rw [List.concat_eq_append] at hcat
      have hmem := toLEBytes_mem_lt n.natAbs
      rw [hcat] at hmem ⊢
      have hd : d < 256 := hmem d (by simp)
      have hds : ∀ b ∈ ds, b < 256 := fun b hb => hmem b (by simp [hb])
      rw [getLastD_concat', List.dropLast_concat]
      intro b hb
      split at hb
      · rcases List.mem_append.mp hb with h | h
        · exact hmem b h
        · simp at h; split at h <;> omega
      · split at hb
        · rcases List.mem_append.mp hb with h | h
          · exact hds b h
          · simp at h; subst h; exact or128_lt d hd
        · exact hmem b hb

/-- **C5 core**: decoding inverts the minimal script-number encoding.  The
bound reflects JavaScript's 32-bit `>>=` on the magnitude. -/
theorem decode_encode (n : ℤ) (h : n.natAbs < 2 ^ 31) :
    decodeScriptNumber (encodeScriptNumber n) = n := by
  by_cases h0 : n = 0
  · subst h0; rfl
  · simp only [encodeScriptNumber, if_neg h0]
    have habs : n.natAbs ≠ 0 := by simpa using h0
    rcases List.eq_nil_or_concat (toLEBytes n.natAbs) with hnil | ⟨ds, d, hcat⟩
    · exact absurd hnil (toLEBytes_ne_nil _ habs)
    rw [List.concat_eq_append] at hcat
    have hmem := toLEBytes_mem_lt n.natAbs
    have hval := leVal_toLEBytes n.natAbs
    rw [hcat] at hmem hval
    have hd : d < 256 := hmem d (by simp)
    have hds : ∀ b ∈ ds, b < 256 := fun b hb => hmem b (by simp [hb])
    rw [hcat, getLastD_concat', List.dropLast_concat]
    rw [leVal_concat] at hval
    by_cases hbit : d &&& 0x80 ≠ 0
    · rw [if_pos hbit]
      by_cases hneg : n < 0
      · rw [if_pos hneg, decode_concat (ds ++ [d]) 0x80 hmem,
          if_pos (by decide : (0x80 : ℕ) &&& 0x80 ≠ 0),
          (by decide : (0x80 : ℕ) &&& 0x7f = 0), Nat.zero_mul, Nat.zero_add,
          leVal_concat, hval]
        omega
      · rw [if_neg hneg, decode_concat (ds ++ [d]) 0x00 hmem,
          if_neg (by decide : ¬((0x00 : ℕ) &&& 0x80 ≠ 0)),
          (by decide : (0x00 : ℕ) &&& 0x7f = 0), Nat.zero_mul, Nat.zero_add,
          leVal_concat, hval]
        omega
    · rw [if_neg hbit]
      push_neg at hbit
      by_cases hneg : n < 0
      · rw [if_pos hneg, decode_concat ds (d ||| 0x80) hds,
          if_pos (or128_and128 d hd), or128_and127 d hd hbit,
          Nat.mul_comm d (256 ^ ds.length), Nat.add_comm, hval]
        omega
      · rw [if_neg hneg, decode_concat ds d hds, if_neg (by simp [hbit]),
          and127_of_high_clear d hd hbit,
          Nat.mul_comm d (256 ^ ds.length), Nat.add_comm, hval]
        omega

/-! ### `isTruthy` on a hex string agrees with `castToBool` on the bytes -/

set_option maxRecDepth 8000 in
theorem byteToHex_eq : ∀ b < 256,
    byteToHex b = [Nat.digitChar (b / 16), Nat.digitChar (b % 16)] := by decide

set_option maxRecDepth 8000 in
theorem jsParseIntHex2_byteToHex : ∀ b < 256,
    jsParseIntHex2 (Nat.digitChar (b / 16)) (Nat.digitChar (b % 16)) = some b := by decide

set_option maxRecDepth 8000 in
theorem byteToHex_toLower : ∀ b < 256,
    (byteToHex b).map Char.toLower = byteToHex b := by decide

set_option maxRecDepth 8000 in
theorem byteToHex_eq_00_iff : ∀ b < 256, byteToHex b = "00".data ↔ b = 0 := by decide

theorem uint8ArrayToHex_cons (x : Nat) (rest : List Nat) :
    uint8ArrayToHex (x :: rest) = byteToHex x ++ uint8ArrayToHex rest := by
  simp [uint8ArrayToHex]

theorem uint8ArrayToHex_eq_nil_iff (bs : List Nat) (h : ∀ x ∈ bs, x < 256) :
    uint8ArrayToHex bs = [] ↔ bs = [] := by
  cases bs with
  | nil => simp [uint8ArrayToHex]
  | cons x rest =>
    rw [uint8ArrayToHex_cons, byteToHex_eq x (h x (List.mem_cons_self x rest))]
    simp

theorem isTruthyGo_hex (bs : List Nat) (h : ∀ x ∈ bs, x < 256) :
    isTruthyGo (uint8ArrayToHex bs) = castToBool bs := by
  induction bs with
  | nil => rfl
  | cons x rest ih =>
    have hx : x < 256 := h x (List.mem_cons_self x rest)
    have hrest : ∀ y ∈ rest, y < 256 := fun y hy => h y (List.mem_cons_of_mem x hy)
    rw [uint8ArrayToHex_cons, byteToHex_eq x hx]
    show isTruthyGo (Nat.digitChar (x / 16) :: Nat.digitChar (x % 16) :: uint8ArrayToHex rest)
      = castToBool (x :: rest)
    rw [isTruthyGo, jsParseIntHex2_byteToHex x hx]
    show (if x ≠ 0 then !(decide (uint8ArrayToHex rest = [] ∧ x = 0x80))
      else isTruthyGo (uint8ArrayToHex rest)) = castToBool (x :: rest)
    rw [castToBool]
    by_cases hx0 : x ≠ 0
    · rw [if_pos hx0, if_pos hx0]
      congr 1
      rw [decide_eq_decide]
      constructor
      · rintro ⟨h1, h2⟩; exact ⟨(uint8ArrayToHex_eq_nil_iff rest hrest).mp h1, h2⟩
      · rintro ⟨h1, h2⟩; exact ⟨(uint8ArrayToHex_eq_nil_iff rest hrest).mpr h1, h2⟩
    · rw [if_neg hx0, if_neg hx0, ih hrest]

theorem uint8ArrayToHex_toLower (bs : List Nat) (h : ∀ x ∈ bs, x < 256) :
    (uint8ArrayToHex bs).map Char.toLower = uint8ArrayToHex bs := by
  induction bs with
  | nil => rfl
  | cons x rest ih =>
    have hx : x < 256 := h x (List.mem_cons_self x rest)
    have hrest : ∀ y ∈ rest, y < 256 := fun y hy => h y (List.mem_cons_of_mem x hy)
    rw [uint8ArrayToHex_cons, List.map_append, ih hrest, byteToHex_toLower x hx]

/-- **C9 core**: `isTruthy` applied to the hex encoding of a byte sequence is
`castToBool` of the bytes. -/
theorem isTruthy_hex_eq_castToBool (bs : List Nat) (h : ∀ x ∈ bs, x < 256) :
    isTruthy (uint8ArrayToHex bs) = castToBool bs := by
  unfold isTruthy
  rw [uint8ArrayToHex_toLower bs h]
  by_cases hc : uint8ArrayToHex bs = [] ∨ uint8ArrayToHex bs = "00".data
  · rw [if_pos hc]
    rcases hc with hc | hc
    · rw [(uint8ArrayToHex_eq_nil_iff bs h).mp hc]; rfl
    · cases bs with
      | nil => rfl
      | cons x rest =>
        have hx : x < 256 := h x (List.mem_cons_self x rest)
        have hrest : ∀ y ∈ rest, y < 256 := fun y hy => h y (List.mem_cons_of_mem x hy)
        rw [uint8ArrayToHex_cons, byteToHex_eq x hx] at hc
        have h00 : "00".data = ['0', '0'] := rfl
        rw [h00] at hc
        have hx16 : Nat.digitChar (x / 16) = '0' ∧ Nat.digitChar (x % 16) = '0'
            ∧ uint8ArrayToHex rest = [] := by
          simpa using hc
        have hrnil : rest = [] := (uint8ArrayToHex_eq_nil_iff rest hrest).mp hx16.2.2
        have hx0 : x = 0 := by
          have h1 : byteToHex x = "00".data := by
            rw [byteToHex_eq x hx, hx16.1, hx16.2.1]
          exact (byteToHex_eq_00_iff x hx).mp h1
        subst hrnil; subst hx0; rfl
  · rw [if_neg hc]
    exact isTruthyGo_hex bs h

/-! ## JavaScript string helpers used by the parser -/

/-- JavaScript `String.prototype.trim`. -/
def jsTrim (s : List Char) : List Char :=
  ((s.dropWhile Char.isWhitespace).reverse.dropWhile Char.isWhitespace).reverse

/-- `String.prototype.startsWith` on character lists. -/
def startsWithChars : List Char → List Char → Bool
  | [], _ => true
  | _ :: _, [] => false
  | p :: ps, c :: cs => p = c && startsWithChars ps cs

/-- A `\d` character of the decimal-literal regex. -/
def jsIsDigit (c : Char) : Bool := '0' ≤ c && c ≤ '9'

/-- A `[0-9a-fA-F]` character of the hex-literal regex. -/
def jsIsHexDigit (c : Char) : Bool :=
  ('0' ≤ c && c ≤ '9') || ('a' ≤ c && c ≤ 'f') || ('A' ≤ c && c ≤ 'F')

/-- `/^0x/i.test(s)`. -/
def regexHexPrefix : List Char → Bool
  | '0' :: c :: _ => c = 'x' || c = 'X'
  | _ => false

/-- `/^[0-9a-fA-F]+$/.test(s)`. -/
def regexAllHex (s : List Char) : Bool := !s.isEmpty && s.all jsIsHexDigit

/-- `/^-?\d+$/.test(s)`. -/
def regexDecimal : List Char → Bool
  | '-' :: rest => !rest.isEmpty && rest.all jsIsDigit
  | s => !s.isEmpty && s.all jsIsDigit

/-- `s.replace(/^0x/i, '')`. -/
def strip0x (s : List Char) : List Char :=
  if regexHexPrefix s then s.drop 2 else s

/-- Unsigned decimal value of a digit string. -/
def decVal (s : List Char) : Nat :=
  s.foldl (fun a c => 10 * a + (c.toNat - '0'.toNat)) 0

/-- `parseInt(s)` on a token matching `-?\d+` (exact for values below `2^53`,
where JavaScript's double-precision `parseInt` is itself exact). -/
def jsParseIntDec (s : List Char) : ℤ :=
  match s with
  | '-' :: rest => -(decVal rest : ℤ)
  | _ => (decVal s : ℤ)

/-- Decimal digit characters of a natural number (JavaScript
`String(n)`), fuel-structured like `toHexDigitsAux`. -/
def natDecCharsAux : Nat → Nat → List Char
  | 0, v => [Nat.digitChar (v % 10)]
  | f + 1, v => if v < 10 then [Nat.digitChar v]
      else natDecCharsAux f (v / 10) ++ [Nat.digitChar (v % 10)]

/-- JavaScript template interpolation `${n}` of an integer. -/
def intDecChars (i : ℤ) : List Char :=
  if i < 0 then '-' :: natDecCharsAux i.natAbs i.natAbs
  else natDecCharsAux i.natAbs i.natAbs

/-! ## Opcode table and instructions -/

/-- Modelled from the spec: the fragment of the `@bsv/sdk` opcode table
(§4.1, standard Bitcoin opcode numbers) that this development needs.  The
SDK dependency's `OP` enum is not part of the source tree; it maps mnemonics
to numeric codes and back. -/
def opTable : List (List Char × Nat) :=
  [("OP_0".data, 0),
   ("OP_PUSHDATA1".data, 76), ("OP_PUSHDATA2".data, 77), ("OP_PUSHDATA4".data, 78),
   ("OP_1NEGATE".data, 79),
   ("OP_1".data, 81), ("OP_2".data, 82), ("OP_3".data, 83), ("OP_4".data, 84),
   ("OP_5".data, 85), ("OP_6".data, 86), ("OP_7".data, 87), ("OP_8".data, 88),
   ("OP_9".data, 89), ("OP_10".data, 90), ("OP_11".data, 91), ("OP_12".data, 92),
   ("OP_13".data, 93), ("OP_14".data, 94), ("OP_15".data, 95), ("OP_16".data, 96),
   ("OP_NOP".data, 97), ("OP_VERIFY".data, 105),
   ("OP_TOALTSTACK".data, 107), ("OP_FROMALTSTACK".data, 108),
   ("OP_DUP".data, 118),
   ("OP_EQUAL".data, 135), ("OP_EQUALVERIFY".data, 136),
   ("OP_ADD".data, 147), ("OP_SUB".data, 148),
   ("OP_HASH160".data, 169), ("OP_CHECKSIG".data, 172), ("OP_CHECKMULTISIG".data, 174)]

/-- `getOpcodeName` (scriptUtils.ts lines 55-67): reverse table lookup with a
push-class fallback name.  The argument is `ℚ` because the fallback parser
feeds it `cleanHex.length / 2`, fractional for odd-length hex tokens. -/
def getOpcodeName (opcode : ℚ) : List Char :=
  let pushDataUsed :=
    if opcode > 75 then
      if opcode > 255 then
        if opcode > 65535 then "OP_PUSHDATA4".data else "OP_PUSHDATA2".data
      else "OP_PUSHDATA1".data
    else "OP_PUSH".data
  match opTable.find? (fun p => decide ((p.2 : ℚ) = opcode)) with
  | some p => p.1
  | none => pushDataUsed

/-- `ScriptInstruction` (scriptUtils.ts lines 4-9). -/
structure ScriptInstruction where
  opcode : List Char
  data : Option (List Char) := none
  rawOpcode : Option ℚ := none
  pushData : Option (List Nat) := none
  deriving DecidableEq, Repr

/-! ## The fallback token parser (scriptUtils.ts lines 115-179) -/

/-- `parseScriptManual`: token-by-token fallback parser.  Comments and empty
tokens are skipped; a token with a `0x` prefix or made of hex characters is a
hex push; a token matching `-?\d+` is a decimal literal; otherwise the
uppercased token is looked up as a mnemonic, and an unknown mnemonic throws
(`Except.error`). -/
def parseScriptManual : List (List Char) → Except (List Char) (List ScriptInstruction)
  | [] => .ok []
  | line :: rest =>
    let trimmed := jsTrim line
    if startsWithChars "//".data trimmed || decide (trimmed = []) then parseScriptManual rest
    else if regexHexPrefix trimmed || regexAllHex trimmed then
      let cleanHex := (strip0x trimmed).map Char.toLower
      let dataLength : ℚ := mkRat cleanHex.length 2
      let opcode : ℚ :=
        if dataLength ≤ 75 then dataLength
        else if dataLength ≤ 255 then 76
        else if dataLength ≤ 65535 then 77
        else 78
      (parseScriptManual rest).map
        (⟨getOpcodeName opcode, some cleanHex, some opcode, some (hexPairsToBytes cleanHex)⟩ :: ·)
    else if regexDecimal trimmed then
      let num := jsParseIntDec trimmed
      if num = -1 then
        (parseScriptManual rest).map (⟨"OP_1NEGATE".data, none, some 79, none⟩ :: ·)
      else if num = 0 then
        (parseScriptManual rest).map (⟨"OP_0".data, none, some 0, none⟩ :: ·)
      else if 1 ≤ num ∧ num ≤ 16 then
        (parseScriptManual rest).map
          (⟨"OP_".data ++ intDecChars num, none, some (((81 + (num - 1) : ℤ) : ℚ)), none⟩ :: ·)
      else
        let scriptNum := encodeScriptNumber num
        (parseScriptManual rest).map
          (⟨getOpcodeName (scriptNum.length : ℚ), some (uint8ArrayToHex scriptNum),
            some ((scriptNum.length : ℚ)), some scriptNum⟩ :: ·)
    else
      let opcodeKey := trimmed.map Char.toUpper
      match opTable.find? (fun p => decide (p.1 = opcodeKey)) with
      | some p => (parseScriptManual rest).map (⟨opcodeKey, none, some ((p.2 : ℚ)), none⟩ :: ·)
      | none => .error ("Unknown opcode: ".data ++ opcodeKey)

/-! ## The Spend stack machine (modelled from the spec, §4.3) -/

/-- Execution phase (`'UnlockingScript' | 'LockingScript'` in the source). -/
inductive ScriptContext
  | unlockingScript
  | lockingScript
  deriving DecidableEq, Repr

/-- Modelled from the spec: the state of the `Spend` machine from `./Spend`
(the `@bsv/sdk` engine, absent from the source tree) — the two script-chunk
lists, a program counter into the current phase's chunks, the phase, and the
two byte-array stacks (§4.3).  Stacks are in JavaScript array order: index 0
first, top of stack last. -/
structure SpendState where
  unlockingChunks : List ScriptInstruction
  lockingChunks : List ScriptInstruction
  programCounter : Nat
  context : ScriptContext
  stack : List (List Nat)
  altStack : List (List Nat)
  deriving DecidableEq, Repr

/-- The chunks of the phase the machine is currently executing. -/
def SpendState.currentScript (s : SpendState) : List ScriptInstruction :=
  match s.context with
  | .unlockingScript => s.unlockingChunks
  | .lockingScript => s.lockingChunks

/-- Push values of the sixteen dedicated small-integer opcodes. -/
def smallIntTable : List (List Char × Nat) :=
  [("OP_1".data, 1), ("OP_2".data, 2), ("OP_3".data, 3), ("OP_4".data, 4),
   ("OP_5".data, 5), ("OP_6".data, 6), ("OP_7".data, 7), ("OP_8".data, 8),
   ("OP_9".data, 9), ("OP_10".data, 10), ("OP_11".data, 11), ("OP_12".data, 12),
   ("OP_13".data, 13), ("OP_14".data, 14), ("OP_15".data, 15), ("OP_16".data, 16)]

/-- Modelled from the spec: the effect of one instruction on the two stacks
(§4.3's opcode table, §4.2/§4.1's push opcodes).  Covers the opcode subset
this development exercises; a chunk with attached push data pushes that data;
failures (`Stack underflow`, failed `OP_EQUALVERIFY`, an unknown opcode) are
returned as `Except.error`, which `Spend.step()` raises as an exception. -/
def execInstruction (instr : ScriptInstruction) (stack altStack : List (List Nat)) :
    Except (List Char) (List (List Nat) × List (List Nat)) :=
  match instr.pushData with
  | some bs => .ok (stack ++ [bs], altStack)
  | none =>
    if instr.opcode = "OP_0".data then .ok (stack ++ [[]], altStack)
    else if instr.opcode = "OP_1NEGATE".data then .ok (stack ++ [[0x81]], altStack)
    else
      match smallIntTable.find? (fun p => decide (p.1 = instr.opcode)) with
      | some p => .ok (stack ++ [[p.2]], altStack)
      | none =>
        if instr.opcode = "OP_DUP".data then
          match stack.getLast? with
          | none => .error ("Stack underflow".data)
          | some top => .ok (stack ++ [top], altStack)
        else if instr.opcode = "OP_ADD".data ∨ instr.opcode = "OP_SUB".data then
          match stack.getLast?, stack.dropLast.getLast? with
          | some b, some a =>
            let va := decodeScriptNumber a
            let vb := decodeScriptNumber b
            let r := if instr.opcode = "OP_ADD".data then va + vb else va - vb
            .ok (stack.dropLast.dropLast ++ [encodeScriptNumber r], altStack)
          | _, _ => .error ("Stack underflow".data)
        else if instr.opcode = "OP_EQUAL".data then
          match stack.getLast?, stack.dropLast.getLast? with
          | some b, some a =>
            .ok (stack.dropLast.dropLast ++ [if a = b then [1] else []], altStack)
          | _, _ => .error ("Stack underflow".data)
        else if instr.opcode = "OP_EQUALVERIFY".data then
          match stack.getLast?, stack.dropLast.getLast? with
          | some b, some a =>
            if a = b then .ok (stack.dropLast.dropLast, altStack)
            else .error ("OP_EQUALVERIFY: Verification failed".data)
          | _, _ => .error ("Stack underflow".data)
        else if instr.opcode = "OP_TOALTSTACK".data then
          match stack.getLast? with
          | some top => .ok (stack.dropLast, altStack ++ [top])
          | none => .error ("Stack underflow".data)
        else if instr.opcode = "OP_FROMALTSTACK".data then
          match altStack.getLast? with
          | some top => .ok (stack ++ [top], altStack.dropLast)
          | none => .error ("Stack underflow".data)
        else if instr.opcode = "OP_CHECKSIG".data then
          match stack.getLast?, stack.dropLast.getLast? with
          | some _, some _ => .ok (stack.dropLast.dropLast ++ [[1]], altStack)
          | _, _ => .error ("Stack underflow".data)
        else if instr.opcode = "OP_NOP".data then .ok (stack, altStack)
        else .error ("Invalid opcode: ".data ++ instr.opcode)

/-- Modelled from the spec: phase normalisation of `Spend.step()` — move into
the locking phase when the unlocking chunks are exhausted. -/
def spendStepNorm (s₀ : SpendState) : SpendState :=
  if s₀.context = .unlockingScript ∧ s₀.unlockingChunks.length ≤ s₀.programCounter
  then { s₀ with context := .lockingScript, programCounter := 0 } else s₀

/-- Modelled from the spec: the execution part of `Spend.step()` after phase
normalisation — execute exactly the instruction at the counter of the current
phase, advance the counter (normalising the phase again), and report whether
instructions remain.  A failure is returned as `Except.error`. -/
def spendStepExec (s : SpendState) : Except (List Char) (Bool × SpendState) :=
  match s.currentScript[s.programCounter]? with
  | none => .ok (false, s)
  | some instr =>
    match execInstruction instr s.stack s.altStack with
    | .error e => .error e
    | .ok (newStack, newAlt) =>
      let pc := s.programCounter + 1
      let s' :=
        if s.context = .unlockingScript ∧ s.unlockingChunks.length ≤ pc
        then { s with context := .lockingScript, programCounter := 0,
                      stack := newStack, altStack := newAlt }
        else { s with programCounter := pc, stack := newStack, altStack := newAlt }
      .ok (decide (s'.programCounter < s'.currentScript.length), s')

/-- Modelled from the spec: one `Spend.step()` (§4.3). -/
def spendStep (s₀ : SpendState) : Except (List Char) (Bool × SpendState) :=
  spendStepExec (spendStepNorm s₀)

/-! ## ScriptState and the stepping controller (scriptUtils.ts lines 11-25, 294-547) -/

/-- `ScriptState` (scriptUtils.ts lines 11-25).  `breakpoints` models the
optional `Set<number>` as a list of indices (an absent set behaves as the
empty one); `spend` is the lazily attached machine instance. -/
structure ScriptState where
  instructions : List ScriptInstruction
  currentIndex : Nat
  stack : List (List Char)
  altStack : List (List Char)
  isComplete : Bool
  isValid : Bool
  unlockingScriptLength : Nat
  context : ScriptContext
  spend : Option SpendState := none
  isRunning : Bool := false
  breakpoints : List Nat := []
  executionError : Option (List Char) := none
  transactionVersion : Option Nat := none
  deriving DecidableEq, Repr

/-- Modelled from the spec: `createSpendFromState` (scriptUtils.ts lines
250-287) rebuilds ASM text from the instruction list and reparses it with the
SDK's `Script.fromASM` (absent from the source tree); per §4.2 the two parse
paths are semantically equivalent, so the chunks are the instructions
themselves, split at the unlocking-length boundary, and the machine starts at
counter 0 with empty stacks in the unlocking phase. -/
def createSpendFromState (state : ScriptState) : SpendState :=
  { unlockingChunks := state.instructions.take state.unlockingScriptLength,
    lockingChunks := state.instructions.drop state.unlockingScriptLength,
    programCounter := 0, context := .unlockingScript, stack := [], altStack := [] }

/-- `executeStep` (scriptUtils.ts lines 294-363): no-op when complete;
otherwise lazily attach a machine, run one `Spend.step()`, fold the machine
state back into the snapshot; completion when the machine reports no
continuation or the folded index reaches the program length; validity (only
at completion) is `castToBool(spend.stack[0])` with a thrown access on an
empty stack caught to `false`; a step error yields a terminal snapshot with
the previous stacks and index. -/
def executeStep (state : ScriptState) : ScriptState :=
  if state.isComplete then state
  else
    let spend := state.spend.getD (createSpendFromState state)
    match spendStep spend with
    | .error msg =>
      { state with isComplete := true, isValid := false, executionError := some msg }
    | .ok (canContinue, spend') =>
      let newStack := spend'.stack.map uint8ArrayToHex
      let newAltStack := spend'.altStack.map uint8ArrayToHex
      let newContext := spend'.context
      let newIndex := spend'.programCounter +
        (if newContext = .lockingScript then state.unlockingScriptLength else 0)
      let isCompleteNew := !canContinue || decide (state.instructions.length ≤ newIndex)
      let isValidNew :=
        if isCompleteNew then
          match spend'.stack.head? with
          | none => false
          | some v => castToBool v
        else false
      { state with
        currentIndex := newIndex, stack := newStack, altStack := newAltStack,
        context := newContext, isComplete := isCompleteNew, isValid := isValidNew,
        spend := some spend', executionError := none }

/-- The forcible completion `executeRun` / `executeToNextBreakpoint` apply
when the 10,000-step ceiling is reached. -/
def tooManySteps (st : ScriptState) : ScriptState :=
  { st with
    isComplete := true, isValid := false, isRunning := false,
    executionError := some ("Execution stopped: too many steps (possible infinite loop)".data) }

/-- The inline-marker test `instructions[i]?.opcode === 'OP_NOP69' ||
instructions[i]?.rawOpcode === 69` shared by `executeRun` (inlined there) and
`isBreakpoint`. -/
def instrIsNop69 (st : ScriptState) (i : Nat) : Bool :=
  match st.instructions[i]? with
  | some instr =>
    decide (instr.opcode = "OP_NOP69".data) || decide (instr.rawOpcode = some (69 : ℚ))
  | none => false

/-- `isBreakpoint` (scriptUtils.ts lines 441-445): explicit set membership or
the inline marker. -/
def isBreakpoint (state : ScriptState) (instructionIndex : Nat) : Bool :=
  state.breakpoints.contains instructionIndex || instrIsNop69 state instructionIndex

/-- The `while (!currentState.isComplete && stepCount < maxSteps)` loop of
`executeRun`, fuel-structured with `fuel = 10000 - stepCount`; returns the
final state and the final step count.  The fuel-0 case is the post-loop
`stepCount >= maxSteps` forcible completion. -/
def executeRunLoop : Nat → ScriptState → Nat → ScriptState × Nat
  | 0, current, stepCount => (tooManySteps current, stepCount)
  | fuel + 1, current, stepCount =>
    if current.isComplete then ({ current with isRunning := false }, stepCount)
    else if current.breakpoints.contains current.currentIndex then
      ({ current with isRunning := false }, stepCount)
    else if instrIsNop69 current current.currentIndex then
      ({ current with isRunning := false }, stepCount)
    else
      let next := { executeStep current with isRunning := true }
      if next.executionError.isSome then ({ next with isRunning := false }, stepCount + 1)
      else executeRunLoop fuel next (stepCount + 1)

/-- `executeRun` (scriptUtils.ts lines 366-422) together with its internal
step count. -/
def executeRunCore (state : ScriptState) : ScriptState × Nat :=
  if state.isComplete then ({ state with isRunning := false }, 0)
  else executeRunLoop 10000 { state with isRunning := true } 0

/-- `executeRun`: run until completion, error, breakpoint, or the ceiling. -/
def executeRun (state : ScriptState) : ScriptState := (executeRunCore state).1

/-- Number of `executeStep` calls `executeRun` performs. -/
def executeRunSteps (state : ScriptState) : Nat := (executeRunCore state).2

/-- The search loop of `executeToNextBreakpoint` (`while (!complete &&
stepCount < maxSteps && !foundBreakpoint)`), fuel-structured as above. -/
def executeToNextBreakpointLoop : Nat → ScriptState → Nat → ScriptState × Nat
  | 0, current, stepCount => (tooManySteps current, stepCount)
  | fuel + 1, current, stepCount =>
    if current.isComplete then ({ current with isRunning := false }, stepCount)
    else if isBreakpoint current current.currentIndex then
      ({ current with isRunning := false }, stepCount)
    else
      let next := { executeStep current with isRunning := true }
      if next.executionError.isSome then ({ next with isRunning := false }, stepCount + 1)
      else executeToNextBreakpointLoop fuel next (stepCount + 1)

/-- `executeToNextBreakpoint` (scriptUtils.ts lines 448-521) with its internal
step count: when already at a breakpoint, first advance one step past it
(returning if that step errors or completes), then search forward. -/
def executeToNextBreakpointCore (state : ScriptState) : ScriptState × Nat :=
  if state.isComplete then ({ state with isRunning := false }, 0)
  else
    let current := { state with isRunning := true }
    if isBreakpoint current current.currentIndex then
      let next := { executeStep current with isRunning := true }
      if next.executionError.isSome || next.isComplete then ({ next with isRunning := false }, 1)
      else executeToNextBreakpointLoop 9999 next 1
    else executeToNextBreakpointLoop 10000 current 0

/-- `executeToNextBreakpoint`: run until the next breakpoint after the
current position. -/
def executeToNextBreakpoint (state : ScriptState) : ScriptState :=
  (executeToNextBreakpointCore state).1

/-- Number of `executeStep` calls `executeToNextBreakpoint` performs. -/
def executeToNextBreakpointSteps (state : ScriptState) : Nat :=
  (executeToNextBreakpointCore state).2

/-- The forward scan of `findNextBreakpoint`, fuel-structured (the
instruction-list length always suffices as fuel). -/
def findNextBreakpointGo (state : ScriptState) : Nat → Nat → Option Nat
  | 0, _ => none
  | fuel + 1, i =>
    if i < state.instructions.length then
      if isBreakpoint state i then some i else findNextBreakpointGo state fuel (i + 1)
    else none

/-- `findNextBreakpoint` (scriptUtils.ts lines 524-534): first breakpoint
index strictly after the current position, if any. -/
def findNextBreakpoint (state : ScriptState) : Option Nat :=
  findNextBreakpointGo state state.instructions.length (state.currentIndex + 1)

/-! ## Well-formedness: every stack byte fits in one byte -/

/-- Every entry of a byte sequence is an actual byte. -/
abbrev WFbytes (bs : List Nat) : Prop := ∀ x ∈ bs, x < 256

/-- Every element of a stack is a well-formed byte sequence. -/
abbrev WFstack (s : List (List Nat)) : Prop := ∀ bs ∈ s, WFbytes bs

/-- The push data attached to an instruction (if any) is well-formed. -/
abbrev WFinstr (i : ScriptInstruction) : Prop := WFbytes (i.pushData.getD [])

/-- All stacks and chunk push data of a machine state are well-formed. -/
abbrev WFspend (sp : SpendState) : Prop :=
  WFstack sp.stack ∧ WFstack sp.altStack ∧
    (∀ i ∈ sp.unlockingChunks, WFinstr i) ∧ (∀ i ∈ sp.lockingChunks, WFinstr i)

/-- The machine a snapshot owns (or would lazily create) is well-formed. -/
abbrev byteWF (st : ScriptState) : Prop :=
  WFspend (st.spend.getD (createSpendFromState st))

theorem WFstack_append {s : List (List Nat)} {x : List Nat}
    (h : WFstack s) (hx : WFbytes x) : WFstack (s ++ [x]) := by
  intro bs hb
  rcases List.mem_append.mp hb with h1 | h1
  · exact h bs h1
  · simp at h1; subst h1; exact hx

theorem WFstack_dropLast {s : List (List Nat)} (h : WFstack s) : WFstack s.dropLast :=
  fun bs hb => h bs (List.dropLast_subset _ hb)

theorem WFstack_getLast {s : List (List Nat)} {x : List Nat}
    (h : WFstack s) (hx : s.getLast? = some x) : WFbytes x :=
  h x (List.mem_of_getLast?_eq_some hx)

theorem smallIntTable_snd_lt : ∀ p ∈ smallIntTable, p.2 < 256 := by decide

set_option maxHeartbeats 2000000 in
/-- One instruction preserves stack well-formedness. -/
theorem execInstruction_WF {instr : ScriptInstruction} {stk alt stk' alt' : List (List Nat)}
    (hi : WFinstr instr) (hs : WFstack stk) (ha : WFstack alt)
    (hok : execInstruction instr stk alt = .ok (stk', alt')) :
    WFstack stk' ∧ WFstack alt' := by
  unfold execInstruction at hok
  split at hok
  · -- pushData present
    rename_i bs hpd
    cases hok
    refine ⟨WFstack_append hs ?_, ha⟩
    simp only [WFinstr, hpd, Option.getD] at hi
    exact hi
  · -- pushData absent
    split at hok
    · cases hok
      exact ⟨WFstack_append hs (by intro x hx; simp at hx), ha⟩
    · split at hok
      · cases hok
        exact ⟨WFstack_append hs (by decide), ha⟩
      · split at hok
        · rename_i p hfind
          cases hok
          refine ⟨WFstack_append hs ?_, ha⟩
          intro x hx; simp at hx; subst hx
          exact smallIntTable_snd_lt p (List.mem_of_find?_eq_some hfind)
        · split at hok
          · -- OP_DUP
            split at hok
            · cases hok
            · rename_i top htop
              cases hok
              exact ⟨WFstack_append hs (WFstack_getLast hs htop), ha⟩
          · split at hok
            · -- OP_ADD / OP_SUB
              split at hok
              · cases hok
                exact ⟨WFstack_append (WFstack_dropLast (WFstack_dropLast hs))
                  (encodeScriptNumber_mem_lt _), ha⟩
              · cases hok
            · split at hok
              · -- OP_EQUAL
                split at hok
                · cases hok
                  refine ⟨WFstack_append (WFstack_dropLast (WFstack_dropLast hs)) ?_, ha⟩
                  split <;> intro x hx <;> simp at hx
                  omega
                · cases hok
              · split at hok
                · -- OP_EQUALVERIFY
                  split at hok
                  · split at hok
                    · cases hok
                      exact ⟨WFstack_dropLast (WFstack_dropLast hs), ha⟩
                    · cases hok
                  · cases hok
                · split at hok
                  · -- OP_TOALTSTACK
                    split at hok
                    · rename_i top htop
                      cases hok
                      exact ⟨WFstack_dropLast hs, WFstack_append ha (WFstack_getLast hs htop)⟩
                    · cases hok
                  · split at hok
                    · -- OP_FROMALTSTACK
                      split at hok
                      · rename_i top htop
                        cases hok
                        exact ⟨WFstack_append hs (WFstack_getLast ha htop), WFstack_dropLast ha⟩
                      · cases hok
                    · split at hok
                      · -- OP_CHECKSIG
                        split at hok
                        · cases hok
                          exact ⟨WFstack_append (WFstack_dropLast (WFstack_dropLast hs))
                            (by decide), ha⟩
                        · cases hok
                      · split at hok
                        · -- OP_NOP
                          cases hok
                          exact ⟨hs, ha⟩
                        · cases hok

/-- Phase normalisation preserves well-formedness. -/
theorem spendStepNorm_WF {sp : SpendState} (hwf : WFspend sp) : WFspend (spendStepNorm sp) := by
  unfold spendStepNorm
  obtain ⟨hstk, halt, hun, hlk⟩ := hwf
  split <;> exact ⟨hstk, halt, hun, hlk⟩

/-- The execution part of a step preserves main-stack well-formedness. -/
theorem spendStepExec_WF {s sp' : SpendState} {cc : Bool}
    (hwf : WFspend s) (hok : spendStepExec s = .ok (cc, sp')) :
    WFstack sp'.stack := by
  unfold spendStepExec at hok
  obtain ⟨hstk, halt, hun, hlk⟩ := hwf
  split at hok
  · cases hok
    exact hstk
  · rename_i instr hget
    have hinstr : WFinstr instr := by
      have hm : instr ∈ s.currentScript := by
        obtain ⟨hlt, he⟩ := List.getElem?_eq_some_iff.mp hget
        exact he ▸ List.getElem_mem hlt
      unfold SpendState.currentScript at hm
      split at hm
      · exact hun instr hm
      · exact hlk instr hm
    split at hok
    · cases hok
    · rename_i newStack newAlt hexec
      have hws := (execInstruction_WF hinstr hstk halt hexec).1
      simp only [] at hok
      split at hok <;> (cases hok; exact hws)

/-- A machine step preserves main-stack well-formedness. -/
theorem spendStep_WF {sp sp' : SpendState} {cc : Bool}
    (hwf : WFspend sp) (hok : spendStep sp = .ok (cc, sp')) :
    WFstack sp'.stack :=
  spendStepExec_WF (spendStepNorm_WF hwf) hok

/-! ## executeStep characterizations -/

/-- When the machine step fails, `executeStep` returns the previous snapshot
terminally completed with the error recorded (stacks and index unchanged). -/
theorem executeStep_error_eq (st : ScriptState) (msg : List Char)
    (h0 : st.isComplete = false)
    (hstep : spendStep (st.spend.getD (createSpendFromState st)) = .error msg) :
    executeStep st
      = { st with isComplete := true, isValid := false, executionError := some msg } := by
  simp only [executeStep, h0, Bool.false_eq_true, if_false, hstep]

/-- The successful-step shape of `executeStep`. -/
theorem executeStep_ok_eq (st : ScriptState) {cc : Bool} {sp' : SpendState}
    (h0 : st.isComplete = false)
    (hstep : spendStep (st.spend.getD (createSpendFromState st)) = .ok (cc, sp')) :
    executeStep st =
      { st with
        currentIndex := sp'.programCounter +
          (if sp'.context = .lockingScript then st.unlockingScriptLength else 0),
        stack := sp'.stack.map uint8ArrayToHex,
        altStack := sp'.altStack.map uint8ArrayToHex,
        context := sp'.context,
        isComplete := !cc || decide (st.instructions.length ≤ sp'.programCounter +
          (if sp'.context = .lockingScript then st.unlockingScriptLength else 0)),
        isValid :=
          if (!cc || decide (st.instructions.length ≤ sp'.programCounter +
              (if sp'.context = .lockingScript then st.unlockingScriptLength else 0)) : Bool)
          then (match sp'.stack.head? with | none => false | some v => castToBool v)
          else false,
        spend := some sp', executionError := none } := by
  simp only [executeStep, h0, Bool.false_eq_true, if_false, hstep]

/-- An error-flagged result of a step on a non-complete snapshot is complete. -/
theorem executeStep_error_isComplete (st : ScriptState)
    (h0 : st.isComplete = false)
    (he : (executeStep st).executionError.isSome = true) :
    (executeStep st).isComplete = true := by
  rcases hstep : spendStep (st.spend.getD (createSpendFromState st)) with msg | ⟨cc, sp'⟩
  · rw [executeStep_error_eq st msg h0 hstep]
  · rw [executeStep_ok_eq st h0 hstep] at he
    simp at he

/-- **C1 (amended)**: for every snapshot whose step reaches completion
without a fatal execution error (and whose machine stacks/push data are made
of actual bytes), the validity flag of the returned state is true iff the
main stack is nonempty and its *first* (bottom) element is truthy — the code
computes `castToBool(spend.stack[0])` with no one-element requirement and no
top-of-stack access. -/
theorem claim1_validity_amended (st : ScriptState)
    (h0 : st.isComplete = false) (hwf : byteWF st)
    (he : (executeStep st).executionError = none)
    (hc : (executeStep st).isComplete = true) :
    ((executeStep st).isValid = true ↔
      ((executeStep st).stack ≠ [] ∧ isTruthy ((executeStep st).stack.headD []) = true)) := by
  rcases hstep : spendStep (st.spend.getD (createSpendFromState st)) with msg | ⟨cc, sp'⟩
  · rw [executeStep_error_eq st msg h0 hstep] at he
    simp at he
  · have hswf : WFstack sp'.stack := spendStep_WF hwf hstep
    rw [executeStep_ok_eq st h0 hstep] at hc ⊢
    simp only [] at hc ⊢
    rw [hc]
    simp only [if_true]
    cases hsp : sp'.stack with
    | nil => simp
    | cons v rest =>
      have hv : WFbytes v := by rw [hsp] at hswf; exact hswf v (List.mem_cons_self v rest)
      simp only [List.head?_cons, List.map_cons, List.headD_cons, ne_eq,
        List.cons_ne_nil, not_false_iff, true_and]
      rw [isTruthy_hex_eq_castToBool v hv]

/-! ## Run-loop lemmas -/

theorem executeRunLoop_steps_le : ∀ (fuel : Nat) (c : ScriptState) (n : Nat),
    (executeRunLoop fuel c n).2 ≤ n + fuel := by
  intro fuel
  induction fuel with
  | zero => intro c n; exact Nat.le_add_right n 0
  | succ f ih =>
    intro c n
    simp only [executeRunLoop]
    split
    · exact Nat.le_add_right n (f + 1)
    · split
      · exact Nat.le_add_right n (f + 1)
      · split
        · exact Nat.le_add_right n (f + 1)
        · split
          · exact (by omega : n + 1 ≤ n + (f + 1))
          · exact Nat.le_trans (ih _ _) (by omega)

theorem executeRunLoop_result : ∀ (fuel : Nat) (c : ScriptState) (n : Nat),
    ((executeRunLoop fuel c n).1.isComplete = true) ∨
      ((executeRunLoop fuel c n).1.isComplete = false ∧
        ((executeRunLoop fuel c n).1.breakpoints.contains
            (executeRunLoop fuel c n).1.currentIndex = true ∨
          instrIsNop69 (executeRunLoop fuel c n).1
            (executeRunLoop fuel c n).1.currentIndex = true)) := by
  intro fuel
  induction fuel with
  | zero => intro c n; left; rfl
  | succ f ih =>
    intro c n
    simp only [executeRunLoop]
    split
    · rename_i hcomp; left; simpa using hcomp
    · rename_i hcomp
      split
      · rename_i hbp
        right
        exact ⟨by simpa using hcomp, Or.inl (by simpa using hbp)⟩
      · split
        · rename_i hnop
          right
          exact ⟨by simpa using hcomp, Or.inr (by simpa using hnop)⟩
        · split
          · rename_i herr
            left
            have hcomp' : c.isComplete = false := by simpa using hcomp
            exact executeStep_error_isComplete c hcomp' (by simpa using herr)
          · exact ih _ _

theorem executeRunLoop_pause (fuel : Nat) (c : ScriptState) (n : Nat)
    (h1 : c.isComplete = false)
    (h2 : c.breakpoints.contains c.currentIndex = true ∨ instrIsNop69 c c.currentIndex = true)
    (hf : fuel ≠ 0) :
    executeRunLoop fuel c n = ({ c with isRunning := false }, n) := by
  match fuel with
  | 0 => exact absurd rfl hf
  | f + 1 =>
    simp only [executeRunLoop]
    rw [if_neg (show ¬(c.isComplete = true) by simp [h1])]
    by_cases hbp : c.breakpoints.contains c.currentIndex = true
    · rw [if_pos hbp]
    · rw [if_neg hbp]
      rcases h2 with h2 | h2
      · exact absurd h2 hbp
      · rw [if_pos h2]

theorem executeToNextBreakpointLoop_steps_le : ∀ (fuel : Nat) (c : ScriptState) (n : Nat),
    (executeToNextBreakpointLoop fuel c n).2 ≤ n + fuel := by
  intro fuel
  induction fuel with
  | zero => intro c n; exact Nat.le_add_right n 0
  | succ f ih =>
    intro c n
    simp only [executeToNextBreakpointLoop]
    split
    · exact Nat.le_add_right n (f + 1)
    · split
      · exact Nat.le_add_right n (f + 1)
      · split
        · exact (by omega : n + 1 ≤ n + (f + 1))
        · exact Nat.le_trans (ih _ _) (by omega)

theorem executeToNextBreakpointLoop_steps_ge : ∀ (fuel : Nat) (c : ScriptState) (n : Nat),
    n ≤ (executeToNextBreakpointLoop fuel c n).2 := by
  intro fuel
  induction fuel with
  | zero => intro c n; exact Nat.le_refl n
  | succ f ih =>
    intro c n
    simp only [executeToNextBreakpointLoop]
    split
    · exact Nat.le_refl n
    · split
      · exact Nat.le_refl n
      · split
        · exact (by omega : n ≤ n + 1)
        · exact Nat.le_trans (Nat.le_succ n) (ih _ _)

theorem executeToNextBreakpointLoop_result : ∀ (fuel : Nat) (c : ScriptState) (n : Nat),
    ((executeToNextBreakpointLoop fuel c n).1.isComplete = true) ∨
      isBreakpoint (executeToNextBreakpointLoop fuel c n).1
        (executeToNextBreakpointLoop fuel c n).1.currentIndex = true := by
  intro fuel
  induction fuel with
  | zero => intro c n; left; rfl
  | succ f ih =>
    intro c n
    simp only [executeToNextBreakpointLoop]
    split
    · rename_i hcomp; left; simpa using hcomp
    · rename_i hcomp
      split
      · rename_i hbp
        right
        simpa using hbp
      · split
        · rename_i herr
          left
          have hcomp' : c.isComplete = false := by simpa using hcomp
          exact executeStep_error_isComplete c hcomp' (by simpa using herr)
        · exact ih _ _

/-! ## Concrete states used by the per-claim theorems -/

def instrOP1 : ScriptInstruction := ⟨"OP_1".data, none, some 81, none⟩

def instrOP0 : ScriptInstruction := ⟨"OP_0".data, none, some 0, none⟩

def instrEqualVerify : ScriptInstruction := ⟨"OP_EQUALVERIFY".data, none, some 136, none⟩

def instrNop69 : ScriptInstruction := ⟨"OP_NOP69".data, none, none, none⟩

def instrPush69 : ScriptInstruction := ⟨"OP_PUSH".data, none, some 69, none⟩

/-- Mid-run snapshot of the program `1 0` (machine attached, one step left):
the final step pushes the falsy empty sequence, completing with a two-element
stack whose bottom is truthy. -/
def c1CexState : ScriptState :=
  { instructions := [instrOP1, instrOP0], currentIndex := 1, stack := ["01".data],
    altStack := [], isComplete := false, isValid := false, unlockingScriptLength := 2,
    context := .unlockingScript,
    spend := some { unlockingChunks := [instrOP1, instrOP0], lockingChunks := [],
                    programCounter := 1, context := .unlockingScript,
                    stack := [[1]], altStack := [] } }

/-- Fresh snapshot of the single-instruction program `1`. -/
def c1WitState : ScriptState :=
  { instructions := [instrOP1], currentIndex := 0, stack := [], altStack := [],
    isComplete := false, isValid := false, unlockingScriptLength := 1,
    context := .unlockingScript }

/-- Fresh snapshot of the program `1` with an explicit breakpoint at index 0. -/
def c2CexState : ScriptState :=
  { instructions := [instrOP1], currentIndex := 0, stack := [], altStack := [],
    isComplete := false, isValid := false, unlockingScriptLength := 1,
    context := .unlockingScript, breakpoints := [0] }

/-- Fresh snapshot whose first instruction is the inline marker `OP_NOP69`. -/
def c2WitState : ScriptState :=
  { instructions := [instrNop69, instrOP1], currentIndex := 0, stack := [], altStack := [],
    isComplete := false, isValid := false, unlockingScriptLength := 2,
    context := .unlockingScript }

/-- Fresh snapshot paused-to-be: the inline marker sits at the initial index,
so `executeRun` returns a non-complete state. -/
def c3CexState : ScriptState :=
  { instructions := [instrNop69, instrOP1, instrOP1], currentIndex := 0, stack := [],
    altStack := [], isComplete := false, isValid := false, unlockingScriptLength := 3,
    context := .unlockingScript }

/-- Fresh snapshot of the program `1` with an explicit breakpoint at the
current index. -/
def c4WitState : ScriptState :=
  { instructions := [instrOP1], currentIndex := 0, stack := [], altStack := [],
    isComplete := false, isValid := false, unlockingScriptLength := 1,
    context := .unlockingScript, breakpoints := [0] }

/-- Scenario B: empty unlocking script, locking script `EQUALVERIFY`. -/
def c8WitState : ScriptState :=
  { instructions := [instrEqualVerify], currentIndex := 0, stack := [], altStack := [],
    isComplete := false, isValid := false, unlockingScriptLength := 0,
    context := .unlockingScript }

/-- Snapshot whose index 1 holds a direct push instruction with numeric
opcode 69 and no explicit breakpoints. -/
def c10WitState : ScriptState :=
  { instructions := [instrOP1, instrPush69], currentIndex := 0, stack := [], altStack := [],
    isComplete := false, isValid := false, unlockingScriptLength := 2,
    context := .unlockingScript }

/-! ## C1 — validity at completion -/

set_option maxRecDepth 10000 in
/-- **C1 (counterexample)**: `executeStep` on `c1CexState` completes without
error, yet validity is true while the main stack has two elements (and its
top is falsy) — refuting "validity is true iff the main stack has exactly one
element and that element is truthy". -/
theorem claim1_counterexample :
    ((executeStep c1CexState).isComplete = true ∧
      (executeStep c1CexState).executionError = none) ∧
    ¬(((executeStep c1CexState).isValid = true) ↔
        ((executeStep c1CexState).stack.length = 1 ∧
          isTruthy ((executeStep c1CexState).stack.getLastD []) = true)) := by
  exact ⟨⟨rfl, rfl⟩, by decide⟩

set_option maxRecDepth 10000 in
/-- **C1 (witness)**: the amended theorem applied to the fresh program `1`,
whose step completes with the one-element truthy stack `["01"]`. -/
theorem claim1_witness :
    c1WitState.isComplete = false ∧ byteWF c1WitState ∧
    (executeStep c1WitState).executionError = none ∧
    (executeStep c1WitState).isComplete = true ∧
    ((executeStep c1WitState).isValid = true ↔
      ((executeStep c1WitState).stack ≠ [] ∧
        isTruthy ((executeStep c1WitState).stack.headD []) = true)) :=
  ⟨rfl, by decide, rfl, rfl, claim1_validity_amended c1WitState rfl (by decide) rfl rfl⟩

/-! ## C2 — executeRun at an initial breakpoint -/

/-- **C2 (amended)**: when the current index of a non-complete state is a
breakpoint, `executeRun` returns immediately at the initial position,
executing zero steps — the loop checks breakpoints *before* the first step. -/
theorem claim2_pause_at_start (st : ScriptState)
    (h1 : st.isComplete = false) (h2 : isBreakpoint st st.currentIndex = true) :
    executeRun st = { st with isRunning := false } ∧ executeRunSteps st = 0 := by
  have h2' : st.breakpoints.contains st.currentIndex = true ∨
      instrIsNop69 st st.currentIndex = true := by
    simpa [isBreakpoint, Bool.or_eq_true] using h2
  have hpause := executeRunLoop_pause 10000 { st with isRunning := true } 0 h1 h2' (by decide)
  constructor
  · show (executeRunCore st).1 = _
    unfold executeRunCore
    rw [if_neg (show ¬(st.isComplete = true) by simp [h1]), hpause]
  · show (executeRunCore st).2 = 0
    unfold executeRunCore
    rw [if_neg (show ¬(st.isComplete = true) by simp [h1]), hpause]

set_option maxRecDepth 10000 in
/-- **C2 (counterexample)**: a non-complete state whose initial index is an
explicit breakpoint, on which `executeRun` executes no step at all and
returns at the initial position — refuting "it does not return at the
initial position without executing the instruction there". -/
theorem claim2_counterexample :
    (c2CexState.isComplete = false ∧ isBreakpoint c2CexState c2CexState.currentIndex = true) ∧
    executeRunSteps c2CexState = 0 ∧ ¬(0 < executeRunSteps c2CexState) ∧
    executeRun c2CexState = { c2CexState with isRunning := false } := by
  exact ⟨⟨rfl, rfl⟩, rfl, by decide, by decide⟩

set_option maxRecDepth 10000 in
/-- **C2 (witness)**: the amended theorem applied to a state whose initial
instruction is the inline marker `OP_NOP69`. -/
theorem claim2_witness :
    c2WitState.isComplete = false ∧ isBreakpoint c2WitState c2WitState.currentIndex = true ∧
    (executeRun c2WitState = { c2WitState with isRunning := false } ∧
      executeRunSteps c2WitState = 0) :=
  ⟨rfl, by decide, claim2_pause_at_start c2WitState rfl (by decide)⟩

/-! ## C3 — bounded run -/

/-- **C3 (amended)**: `executeRun` performs at most 10,000 internal steps and
returns a state that is either complete or paused (non-complete) at a
breakpoint — explicit set membership or the inline marker; when the loop's
step budget is exhausted the state is forcibly completed by `tooManySteps`
(validity false, "too many steps" error). -/
theorem claim3_bounded_run : ∀ st : ScriptState,
    executeRunSteps st ≤ 10000 ∧
    ((executeRun st).isComplete = true ∨
      ((executeRun st).isComplete = false ∧
        ((executeRun st).breakpoints.contains (executeRun st).currentIndex = true ∨
          instrIsNop69 (executeRun st) (executeRun st).currentIndex = true))) ∧
    (∀ (c : ScriptState) (n : Nat), executeRunLoop 0 c n = (tooManySteps c, n)) := by
  intro st
  refine ⟨?_, ?_, fun c n => rfl⟩
  · show (executeRunCore st).2 ≤ 10000
    unfold executeRunCore
    split
    · exact Nat.zero_le _
    · exact executeRunLoop_steps_le 10000 _ 0
  · show ((executeRunCore st).1.isComplete = true) ∨
      ((executeRunCore st).1.isComplete = false ∧
        ((executeRunCore st).1.breakpoints.contains (executeRunCore st).1.currentIndex = true ∨
          instrIsNop69 (executeRunCore st).1 (executeRunCore st).1.currentIndex = true))
    unfold executeRunCore
    split
    · rename_i hcomp; left; simpa using hcomp
    · exact executeRunLoop_result 10000 _ 0

set_option maxRecDepth 10000 in
/-- **C3 (counterexample)**: a non-complete state with the inline marker at
the initial index: `executeRun` returns a state with completion still false —
refuting "always returns a state with the completion flag true". -/
theorem claim3_counterexample :
    c3CexState.isComplete = false ∧ (executeRun c3CexState).isComplete = false := by
  exact ⟨rfl, rfl⟩

/-! ## C8 — errors become terminal snapshots -/

/-- **C8**: whenever the machine step raises an execution error, `executeStep`
returns the previous snapshot with completion true, validity false and the
error message recorded — main stack, alt stack and current index unchanged
(the record update touches no other field). -/
theorem claim8_error_terminal (st : ScriptState) (msg : List Char)
    (h0 : st.isComplete = false)
    (hstep : spendStep (st.spend.getD (createSpendFromState st)) = .error msg) :
    executeStep st
      = { st with isComplete := true, isValid := false, executionError := some msg } :=
  executeStep_error_eq st msg h0 hstep

/-- **C8 (witness)**: Scenario B — empty unlocking script, locking script
`EQUALVERIFY` — fails with a stack underflow; the snapshot is completed,
invalid, carries the error, and keeps index 0 and the empty stacks. -/
theorem claim8_witness :
    c8WitState.isComplete = false ∧
    spendStep (c8WitState.spend.getD (createSpendFromState c8WitState))
      = .error ("Stack underflow".data) ∧
    executeStep c8WitState = { c8WitState with
      isComplete := true, isValid := false,
      executionError := some ("Stack underflow".data) } :=
  ⟨rfl, rfl, claim8_error_terminal c8WitState ("Stack underflow".data) rfl rfl⟩

/-! ## C9 — isTruthy refines castToBool -/

/-- **C9**: for every byte sequence, `isTruthy` applied to its lowercase hex
encoding returns the same boolean as `castToBool` applied to the bytes (both
false on empty input and on negative zero). -/
theorem claim9_isTruthy_castToBool (b : List Nat) (h : ∀ x ∈ b, x < 256) :
    isTruthy (uint8ArrayToHex b) = castToBool b :=
  isTruthy_hex_eq_castToBool b h

/-- **C9 (witness)**: negative zero `[0x80]` — hex `"80"` — is falsy on both
sides. -/
theorem claim9_witness :
    (∀ x ∈ [0x80], x < 256) ∧
    isTruthy (uint8ArrayToHex [0x80]) = castToBool [0x80] ∧
    castToBool [0x80] = false :=
  ⟨by decide, claim9_isTruthy_castToBool [0x80] (by decide), rfl⟩

/-! ## C4 — run to next breakpoint advances first -/

/-- **C4**: on a non-complete state whose current position is a breakpoint,
`executeToNextBreakpoint` performs at least one step (never halting
immediately at the starting breakpoint) and at most 10,000; its result is
exactly "advance one step past the position, then search forward with the
bounded loop"; and the returned state is complete or paused at a breakpoint. -/
theorem claim4_advance_then_search (st : ScriptState)
    (h1 : st.isComplete = false) (h2 : isBreakpoint st st.currentIndex = true) :
    (1 ≤ executeToNextBreakpointSteps st ∧ executeToNextBreakpointSteps st ≤ 10000) ∧
    executeToNextBreakpointCore st =
      (let next := { executeStep { st with isRunning := true } with isRunning := true };
       if next.executionError.isSome || next.isComplete then ({ next with isRunning := false }, 1)
       else executeToNextBreakpointLoop 9999 next 1) ∧
    ((executeToNextBreakpoint st).isComplete = true ∨
      isBreakpoint (executeToNextBreakpoint st) (executeToNextBreakpoint st).currentIndex
        = true) := by
  have hcore : executeToNextBreakpointCore st =
      (let next := { executeStep { st with isRunning := true } with isRunning := true };
       if next.executionError.isSome || next.isComplete then ({ next with isRunning := false }, 1)
       else executeToNextBreakpointLoop 9999 next 1) := by
    unfold executeToNextBreakpointCore
    rw [if_neg (show ¬(st.isComplete = true) by simp [h1])]
    rw [if_pos (show isBreakpoint { st with isRunning := true }
      ({ st with isRunning := true } : ScriptState).currentIndex = true from h2)]
  refine ⟨⟨?_, ?_⟩, hcore, ?_⟩
  · show 1 ≤ (executeToNextBreakpointCore st).2
    rw [hcore]
    dsimp only
    split
    · exact Nat.le_refl 1
    · exact executeToNextBreakpointLoop_steps_ge 9999 _ 1
  · show (executeToNextBreakpointCore st).2 ≤ 10000
    rw [hcore]
    dsimp only
    split
    · exact (by norm_num : (1 : ℕ) ≤ 10000)
    · exact le_trans (executeToNextBreakpointLoop_steps_le 9999 _ 1) (by norm_num)
  · show ((executeToNextBreakpointCore st).1.isComplete = true) ∨
      isBreakpoint (executeToNextBreakpointCore st).1
        (executeToNextBreakpointCore st).1.currentIndex = true
    rw [hcore]
    dsimp only
    split
    · rename_i hcond
      left
      rcases (Bool.or_eq_true _ _).mp hcond with herr | hcomp
      · have h0' : ({ st with isRunning := true } : ScriptState).isComplete = false := h1
        have := executeStep_error_isComplete { st with isRunning := true } h0'
          (by simpa using herr)
        simpa using this
      · simpa using hcomp
    · exact executeToNextBreakpointLoop_result 9999 _ 1

set_option maxRecDepth 10000 in
/-- **C4 (witness)**: the theorem applied to the fresh program `1` with an
explicit breakpoint at the current index 0 (the one step past the breakpoint
completes the program). -/
theorem claim4_witness :
    c4WitState.isComplete = false ∧
    isBreakpoint c4WitState c4WitState.currentIndex = true ∧
    ((1 ≤ executeToNextBreakpointSteps c4WitState ∧
        executeToNextBreakpointSteps c4WitState ≤ 10000) ∧
      executeToNextBreakpointCore c4WitState =
        (let next := { executeStep { c4WitState with isRunning := true } with isRunning := true };
         if next.executionError.isSome || next.isComplete then ({ next with isRunning := false }, 1)
         else executeToNextBreakpointLoop 9999 next 1) ∧
      ((executeToNextBreakpoint c4WitState).isComplete = true ∨
        isBreakpoint (executeToNextBreakpoint c4WitState)
          (executeToNextBreakpoint c4WitState).currentIndex = true)) :=
  ⟨rfl, rfl, claim4_advance_then_search c4WitState rfl rfl⟩

/-! ## C10 — numeric opcode 69 acts as an inline breakpoint marker -/

theorem findNextBreakpointGo_isSome (st : ScriptState) (i : Nat)
    (hbp : isBreakpoint st i = true) (hlen : i < st.instructions.length) :
    ∀ (fuel j : Nat), j ≤ i → st.instructions.length ≤ fuel + j →
      (findNextBreakpointGo st fuel j).isSome = true := by
  intro fuel
  induction fuel with
  | zero => intro j hj hf; exfalso; omega
  | succ f ih =>
    intro j hj hf
    simp only [findNextBreakpointGo]
    rw [if_pos (show j < st.instructions.length by omega)]
    by_cases hb : isBreakpoint st j = true
    · rw [if_pos hb]; rfl
    · rw [if_neg hb]
      have hji : j ≠ i := fun h => hb (h ▸ hbp)
      exact ih (j + 1) (by omega) (by omega)

/-- **C10**: an instruction with mnemonic `OP_NOP69` or numeric opcode 69
(the direct "push 69 raw bytes" length code) makes its index a breakpoint
even when it is not in the explicit set: `isBreakpoint` is true there,
`executeRun` started at it pauses immediately without stepping, and
`findNextBreakpoint` from any earlier position finds a breakpoint. -/
theorem claim10_inline_marker (st : ScriptState) (i : Nat) (instr : ScriptInstruction)
    (hget : st.instructions[i]? = some instr)
    (hmark : instr.opcode = "OP_NOP69".data ∨ instr.rawOpcode = some (69 : ℚ))
    (hnot : st.breakpoints.contains i = false) :
    isBreakpoint st i = true ∧
    (st.isComplete = false → st.currentIndex = i →
      executeRun st = { st with isRunning := false } ∧ executeRunSteps st = 0) ∧
    (st.currentIndex < i → (findNextBreakpoint st).isSome = true) := by
  have hnop : instrIsNop69 st i = true := by
    unfold instrIsNop69
    rw [hget]
    rcases hmark with h | h
    · simp [h]
    · simp [h]
  have hbp : isBreakpoint st i = true := by
    unfold isBreakpoint
    rw [hnop]
    simp
  refine ⟨hbp, ?_, ?_⟩
  · intro h1 hidx
    have h2' : st.breakpoints.contains st.currentIndex = true ∨
        instrIsNop69 st st.currentIndex = true := Or.inr (by rw [hidx]; exact hnop)
    have hpause := executeRunLoop_pause 10000 { st with isRunning := true } 0 h1 h2' (by decide)
    constructor
    · show (executeRunCore st).1 = _
      unfold executeRunCore
      rw [if_neg (show ¬(st.isComplete = true) by simp [h1]), hpause]
    · show (executeRunCore st).2 = 0
      unfold executeRunCore
      rw [if_neg (show ¬(st.isComplete = true) by simp [h1]), hpause]
  · intro hlt
    have hlen : i < st.instructions.length := by
      rcases List.getElem?_eq_some_iff.mp hget with ⟨h, _⟩
      exact h
    show (findNextBreakpointGo st st.instructions.length (st.currentIndex + 1)).isSome = true
    exact findNextBreakpointGo_isSome st i hbp hlen st.instructions.length
      (st.currentIndex + 1) (by omega) (by omega)

set_option maxRecDepth 10000 in
/-- **C10 (witness)**: the theorem applied to a snapshot whose index 1 holds
a direct push instruction with numeric opcode 69 and whose explicit
breakpoint set is empty. -/
theorem claim10_witness :
    c10WitState.instructions[1]? = some instrPush69 ∧
    (instrPush69.opcode = "OP_NOP69".data ∨ instrPush69.rawOpcode = some (69 : ℚ)) ∧
    c10WitState.breakpoints.contains 1 = false ∧
    (isBreakpoint c10WitState 1 = true ∧
      (c10WitState.isComplete = false → c10WitState.currentIndex = 1 →
        executeRun c10WitState = { c10WitState with isRunning := false } ∧
          executeRunSteps c10WitState = 0) ∧
      (c10WitState.currentIndex < 1 → (findNextBreakpoint c10WitState).isSome = true)) :=
  ⟨rfl, Or.inr rfl, rfl,
    claim10_inline_marker c10WitState 1 instrPush69 rfl (Or.inr rfl) rfl⟩

/-! ## C5 — script-number round trip -/

/-- **C5**: decoding the minimal script-number encoding returns the original
integer, for every integer whose magnitude fits JavaScript's 32-bit `>>=`
(a range containing 0, ±1, ±16, 127, ±128, 255, 256). -/
theorem claim5_roundtrip (n : ℤ) (h : n.natAbs ≤ 2 ^ 31 - 1) :
    decodeScriptNumber (encodeScriptNumber n) = n :=
  decode_encode n (by omega)

/-- **C5 (witness)**: the round trip at the byte-boundary values 128 and
-128. -/
theorem claim5_witness :
    ((128 : ℤ).natAbs ≤ 2 ^ 31 - 1) ∧
    decodeScriptNumber (encodeScriptNumber 128) = 128 ∧
    decodeScriptNumber (encodeScriptNumber (-128)) = -128 :=
  ⟨by decide, claim5_roundtrip 128 (by decide), claim5_roundtrip (-128) (by decide)⟩

/-! ## C7 — parsing the decimal literal 128 -/

set_option maxRecDepth 10000 in
/-- **C7 (failing input)**: the fallback parser classifies the token `128` by
the hex-literal rule (its regex lacks the even-length requirement of §4.2),
producing a push of the single byte `0x12` with the fractional opcode `3/2` —
not the 2-byte minimal encoding `80 00` that `encodeScriptNumber 128` (the
decimal-literal path the token was meant to take) produces. -/
theorem claim7_code_bug :
    parseScriptManual ["128".data]
      = .ok [⟨"OP_PUSH".data, some ("128".data), some (mkRat 3 2), some [0x12]⟩] ∧
    encodeScriptNumber 128 = [0x80, 0x00] ∧
    (some [0x12] : Option (List Nat)) ≠ some [0x80, 0x00] :=
  ⟨rfl, rfl, by decide⟩

/-! ## C6 — classification of decimal tokens -/

theorem ws_not_digit (c : Char) (h : c.isWhitespace = true) : jsIsDigit c = false := by
  unfold Char.isWhitespace at h
  simp only [Bool.or_eq_true, decide_eq_true_eq] at h
  rcases h with ((h | h) | h) | h <;> (subst h; decide)

theorem digit_not_ws (c : Char) (h : jsIsDigit c = true) : c.isWhitespace = false := by
  cases hws : c.isWhitespace
  · rfl
  · rw [ws_not_digit c hws] at h; cases h

theorem jsTrim_dash_digits (ds : List Char) (hne : ds ≠ [])
    (hd : ∀ c ∈ ds, jsIsDigit c = true) : jsTrim ('-' :: ds) = '-' :: ds := by
  unfold jsTrim
  have h1 : ('-' :: ds).dropWhile Char.isWhitespace = '-' :: ds := by
    rw [List.dropWhile_cons]
    simp
  rw [h1]
  rcases hrev : ds.reverse with _ | ⟨c, t⟩
  · exact absurd (by simpa using hrev) hne
  · have hc : c ∈ ds := by
      have : c ∈ ds.reverse := by rw [hrev]; exact List.mem_cons_self c t
      simpa using this
    have h2 : (('-' :: ds).reverse).dropWhile Char.isWhitespace = ('-' :: ds).reverse := by
      rw [List.reverse_cons, hrev]
      show List.dropWhile _ (c :: (t ++ ['-'])) = _
      rw [List.dropWhile_cons]
      simp [digit_not_ws c (hd c hc)]
    rw [h2, List.reverse_reverse]

theorem startsWith_slash_dash (ds : List Char) :
    startsWithChars ("//".data) ('-' :: ds) = false := by
  show startsWithChars ['/', '/'] ('-' :: ds) = false
  simp [startsWithChars]

theorem regexHexPrefix_dash (ds : List Char) : regexHexPrefix ('-' :: ds) = false := by
  cases ds <;> rfl

theorem regexAllHex_dash (ds : List Char) : regexAllHex ('-' :: ds) = false := by
  simp [regexAllHex, List.all_cons]
  intro h
  cases h

theorem regexDecimal_dash (ds : List Char) (hne : ds ≠ [])
    (hd : ∀ c ∈ ds, jsIsDigit c = true) : regexDecimal ('-' :: ds) = true := by
  show (!ds.isEmpty && ds.all jsIsDigit) = true
  simp [List.isEmpty_iff, hne, List.all_eq_true]
  exact hd

set_option maxHeartbeats 1000000 in
/-- **C6 (amended)**: only minus-prefixed decimal tokens reach the
signed-decimal classification (unsigned digit strings are consumed earlier by
the hex-literal rule).  For a token `-` followed by up to nine digits: value
0 (e.g. `-0`) emits `OP_0`, value -1 emits `OP_1NEGATE`, and any other value
emits a push instruction carrying its minimal script-number encoding; the
1..16 small-integer branch is unreachable from such tokens. -/
theorem claim6_negative_decimal (ds : List Char) (hne : ds ≠ [])
    (hd : ∀ c ∈ ds, jsIsDigit c = true) (hlen : ds.length ≤ 9) :
    parseScriptManual ['-' :: ds]
      = .ok [if jsParseIntDec ('-' :: ds) = -1 then ⟨"OP_1NEGATE".data, none, some 79, none⟩
             else if jsParseIntDec ('-' :: ds) = 0 then ⟨"OP_0".data, none, some 0, none⟩
             else ⟨getOpcodeName (((encodeScriptNumber (jsParseIntDec ('-' :: ds))).length : ℚ)),
                   some (uint8ArrayToHex (encodeScriptNumber (jsParseIntDec ('-' :: ds)))),
                   some (((encodeScriptNumber (jsParseIntDec ('-' :: ds))).length : ℚ)),
                   some (encodeScriptNumber (jsParseIntDec ('-' :: ds)))⟩] := by
  have htrim := jsTrim_dash_digits ds hne hd
  have hnum : jsParseIntDec ('-' :: ds) = -(decVal ds : ℤ) := rfl
  simp only [parseScriptManual, htrim, startsWith_slash_dash, regexHexPrefix_dash,
    regexAllHex_dash, regexDecimal_dash ds hne hd, Bool.false_or, Bool.or_false,
    if_true, if_false, Bool.false_eq_true, decide_eq_true_eq]
  rw [if_neg (show ¬((startsWithChars ['/', '/'] ('-' :: ds) || decide ('-' :: ds = [])) = true)
    by simp [startsWithChars])]
  by_cases h1 : jsParseIntDec ('-' :: ds) = -1
  · simp [h1, Except.map]
  · by_cases h2 : jsParseIntDec ('-' :: ds) = 0
    · simp [h1, h2, Except.map]
    · have h316 : ¬(1 ≤ jsParseIntDec ('-' :: ds) ∧ jsParseIntDec ('-' :: ds) ≤ 16) := by
        rw [hnum] at h2 ⊢
        intro hcon
        omega
      simp [h1, h2, h316, Except.map]

set_option maxRecDepth 10000 in
/-- **C6 (counterexample)**: the token `16` matches `-?[0-9]+` with value 16,
yet the fallback parser classifies it as a hex literal — pushing the byte
`0x16` with raw opcode 1 — not as the dedicated small-integer opcode `OP_16`
(code 96). -/
theorem claim6_counterexample :
    parseScriptManual ["16".data]
      = .ok [⟨"OP_PUSH".data, some ("16".data), some 1, some [0x16]⟩] ∧
    (⟨"OP_PUSH".data, some ("16".data), some 1, some [0x16]⟩ : ScriptInstruction)
      ≠ ⟨"OP_16".data, none, some 96, none⟩ :=
  ⟨rfl, by decide⟩

set_option maxRecDepth 10000 in
/-- **C6 (witness)**: the amended theorem at the token `-5`. -/
theorem claim6_witness :
    (['5'] ≠ ([] : List Char)) ∧ (∀ c ∈ ['5'], jsIsDigit c = true) ∧
    (['5'] : List Char).length ≤ 9 ∧
    parseScriptManual ['-' :: ['5']]
      = .ok [if jsParseIntDec ('-' :: ['5']) = -1 then ⟨"OP_1NEGATE".data, none, some 79, none⟩
             else if jsParseIntDec ('-' :: ['5']) = 0 then ⟨"OP_0".data, none, some 0, none⟩
             else ⟨getOpcodeName (((encodeScriptNumber (jsParseIntDec ('-' :: ['5']))).length : ℚ)),
                   some (uint8ArrayToHex (encodeScriptNumber (jsParseIntDec ('-' :: ['5'])))),
                   some (((encodeScriptNumber (jsParseIntDec ('-' :: ['5']))).length : ℚ)),
                   some (encodeScriptNumber (jsParseIntDec ('-' :: ['5'])))⟩] :=
  ⟨by decide, by decide, by decide,
    claim6_negative_decimal ['5'] (by decide) (by decide) (by decide)⟩

end ScriptWizard
